import Mathlib

/-!
Shallow embedding of src/gcode-machine-control.c (BeagleG motion-control
layer).  C float arithmetic is idealised as exact rational arithmetic (ℚ);
the travel-speed computation, which uses sqrt, lives in ℝ.  Machine
positions are C ints, embedded as ℤ; the float→int conversion in C
truncates toward zero, embedded as qTrunc.  Calls to the external step
queue (beagleg_enqueue, beagleg_wait_queue_empty) and trace lines written
to the message stream are recorded as an event list.
-/

namespace BeagleG

/-- Modelled from the spec: the axis enumeration lives in gcode-parser.h,
which is not part of the given sources.  The spec's data model has the four
axes X, Y, Z, E. -/
def GCODE_NUM_AXES : Nat := 4

def AXIS_X : Fin GCODE_NUM_AXES := ⟨0, by decide⟩
def AXIS_Y : Fin GCODE_NUM_AXES := ⟨1, by decide⟩
def AXIS_Z : Fin GCODE_NUM_AXES := ⟨2, by decide⟩
def AXIS_E : Fin GCODE_NUM_AXES := ⟨3, by decide⟩

/-- ZERO_FEEDRATE_OVERRIDE_HZ from the source: "In case we get a zero
feedrate, send this frequency to motors instead." -/
def ZERO_FEEDRATE_OVERRIDE_HZ : ℝ := 5

/-- Modelled from the spec: struct MachineControlConfig is declared in
gcode-machine-control.h, which is not part of the given sources.  Fields
follow the spec's MachineConfig: per-axis steps-per-millimeter (integer:
the source assigns it to int and uses the 1.0f* trick when dividing by it),
maximum feedrate, global speed factor, acceleration hint, dry-run flag,
synchronous-queue flag, debug-trace flag. -/
structure MachineControlConfig where
  axis_steps_per_mm : Fin GCODE_NUM_AXES → ℤ
  max_feedrate : ℚ
  speed_factor : ℚ
  acceleration : ℚ
  dry_run : Bool
  synchronous : Bool
  debug_print : Bool

/-- struct PrinterState.  msg_stream is embedded as presence/absence of the
message stream. -/
structure PrinterState where
  cfg : MachineControlConfig
  current_feedrate_mm_per_sec : ℚ
  prog_speed_factor : ℚ
  machine_position : Fin GCODE_NUM_AXES → ℤ
  msg_stream : Bool

/-- Modelled from the spec: struct bg_movement is declared in
motor-interface.h, which is not part of the given sources.  Per the spec's
StepCommand: per-axis signed step delta and one scalar travel speed in
steps/second. -/
structure BgMovement where
  steps : Fin GCODE_NUM_AXES → ℤ
  travel_speed : ℝ

/-- Observable effects of the machine-control layer: submissions to the
step queue and trace lines on the message stream. -/
inductive MEvent where
  | waitQueueEmpty
  | enqueue (cmd : BgMovement)
  | traceZeroFeedrate (steps_per_mm : ℤ)
  | traceDebugPrint (cmd : BgMovement) (feedrate : ℚ)
  | traceHoming (bitmap : ℕ) (dx dy dz : ℤ)
  | traceSpeedFactorRejected (value : ℚ)

/-- C float→int conversion: truncation toward zero. -/
def qTrunc (q : ℚ) : ℤ := if 0 ≤ q then ⌊q⌋ else ⌈q⌉

/-- choose_max_abs from the source. -/
def choose_max_abs (a b : ℤ) : ℤ := if |a| > |b| then |a| else |b|

/-- euklid_distance from the source. -/
noncomputable def euklid_distance (a b : ℝ) : ℝ := Real.sqrt (a * a + b * b)

/-- The travel speed computed at lines 152-166 of move_machine_steps,
before the zero-feedrate override. -/
noncomputable def travelSpeedRaw (steps_per_mm_x : ℤ) (feedrate : ℚ)
    (steps : Fin GCODE_NUM_AXES → ℤ) : ℝ :=
  let max_axis_steps := choose_max_abs (steps AXIS_X) (steps AXIS_Y)
  if max_axis_steps > 0 then
    (max_axis_steps : ℝ) * (steps_per_mm_x : ℝ) * (feedrate : ℝ) /
      euklid_distance (steps AXIS_X : ℝ) (steps AXIS_Y : ℝ)
  else
    (steps_per_mm_x : ℝ) * (feedrate : ℝ)

open Classical in
/-- move_machine_steps: returns the emitted events.  If all steps are zero
nothing happens.  Otherwise the command is built, the zero-feedrate
override applied (with its trace when a message stream is present), the
command enqueued unless in dry-run mode (after a queue drain in
synchronous mode), and the debug line printed when enabled. -/
noncomputable def move_machine_steps (state : PrinterState) (feedrate : ℚ)
    (machine_steps : Fin GCODE_NUM_AXES → ℤ) : List MEvent :=
  if ∀ i, machine_steps i = 0 then []
  else
    let min_feedrate_relevant_steps_per_mm := state.cfg.axis_steps_per_mm AXIS_X
    let raw := travelSpeedRaw min_feedrate_relevant_steps_per_mm feedrate machine_steps
    let command : BgMovement :=
      ⟨machine_steps, if raw = 0 then ZERO_FEEDRATE_OVERRIDE_HZ else raw⟩
    (if raw = 0 ∧ state.msg_stream then
        [MEvent.traceZeroFeedrate min_feedrate_relevant_steps_per_mm] else [])
    ++ (if state.cfg.dry_run then []
        else (if state.cfg.synchronous then [MEvent.waitQueueEmpty] else [])
          ++ [MEvent.enqueue command])
    ++ (if state.cfg.debug_print ∧ state.msg_stream then
          [MEvent.traceDebugPrint command feedrate] else [])

/-- machine_move: convert the real-world target to machine steps, move by
the difference, and commit the new absolute position unconditionally. -/
noncomputable def machine_move (state : PrinterState) (feedrate : ℚ)
    (axis : Fin GCODE_NUM_AXES → ℚ) : PrinterState × List MEvent :=
  let new_machine_position : Fin GCODE_NUM_AXES → ℤ :=
    fun i => qTrunc (axis i * (state.cfg.axis_steps_per_mm i : ℚ))
  let differences : Fin GCODE_NUM_AXES → ℤ :=
    fun i => new_machine_position i - state.machine_position i
  let ev := move_machine_steps state feedrate differences
  ({ state with machine_position := new_machine_position }, ev)

/-- machine_G1 (coordinated move). -/
noncomputable def machine_G1 (state : PrinterState) (feed : ℚ)
    (axis : Fin GCODE_NUM_AXES → ℚ) : PrinterState × List MEvent :=
  let state1 :=
    if feed > 0 then
      { state with current_feedrate_mm_per_sec := state.cfg.speed_factor * feed }
    else state
  let feedrate := state1.prog_speed_factor * state1.current_feedrate_mm_per_sec
  let feedrate1 :=
    if feedrate > state1.cfg.max_feedrate then state1.cfg.max_feedrate else feedrate
  machine_move state1 feedrate1 axis

/-- machine_G0 (rapid move). -/
noncomputable def machine_G0 (state : PrinterState) (feed : ℚ)
    (axis : Fin GCODE_NUM_AXES → ℚ) : PrinterState × List MEvent :=
  let rapid_feed := state.cfg.max_feedrate
  let given := state.cfg.speed_factor * state.prog_speed_factor * feed
  let rapid_feed1 :=
    if feed > 0 ∧ given < state.cfg.max_feedrate then given else rapid_feed
  machine_move state rapid_feed1 axis

/-- machine_set_speed_factor (M220). -/
def machine_set_speed_factor (state : PrinterState) (value : ℚ) :
    PrinterState × List MEvent :=
  let value1 := if value < 0 then 1 + value else value
  if value1 < 5 / 1000 then
    (state,
     if state.msg_stream then [MEvent.traceSpeedFactorRejected value1] else [])
  else ({ state with prog_speed_factor := value1 }, [])

/-- Checked array read: the C code indexes int arrays of length
GCODE_NUM_AXES; an index out of bounds is undefined behaviour, embedded as
none. -/
def readIdx (a : Fin GCODE_NUM_AXES → ℤ) (i : ℕ) : Option ℤ :=
  if h : i < GCODE_NUM_AXES then some (a ⟨i, h⟩) else none

/-- Checked array write, same convention as readIdx. -/
def writeIdx (a : Fin GCODE_NUM_AXES → ℤ) (i : ℕ) (v : ℤ) :
    Option (Fin GCODE_NUM_AXES → ℤ) :=
  if h : i < GCODE_NUM_AXES then some (Function.update a ⟨i, h⟩ v) else none

/-- One iteration of the machine_home loop body at index i, carrying
(machine_position, machine_pos_differences).  For a bitmapped axis other
than AXIS_E the difference is set to the negated position; the position is
then reset to zero.  Every array access is bounds-checked. -/
def homeStep (axes_bitmap : ℕ)
    (acc : Option ((Fin GCODE_NUM_AXES → ℤ) × (Fin GCODE_NUM_AXES → ℤ)))
    (i : ℕ) : Option ((Fin GCODE_NUM_AXES → ℤ) × (Fin GCODE_NUM_AXES → ℤ)) :=
  match acc with
  | none => none
  | some (pos, diffs) =>
    if axes_bitmap.testBit i then
      if i ≠ (AXIS_E : Fin GCODE_NUM_AXES).val then
        match readIdx pos i with
        | none => none
        | some v =>
          match writeIdx diffs i (-v) with
          | none => none
          | some diffs1 =>
            match writeIdx pos i 0 with
            | none => none
            | some pos1 => some (pos1, diffs1)
      else
        match writeIdx pos i 0 with
        | none => none
        | some pos1 => some (pos1, diffs)
    else some (pos, diffs)

/-- The machine_home loop, lines 270-277: note the source iterates
for (int i = 0; i <= GCODE_NUM_AXES; ++i), i.e. GCODE_NUM_AXES + 1
iterations. -/
def homeScan (axes_bitmap : ℕ) (pos : Fin GCODE_NUM_AXES → ℤ) :
    Option ((Fin GCODE_NUM_AXES → ℤ) × (Fin GCODE_NUM_AXES → ℤ)) :=
  (List.range (GCODE_NUM_AXES + 1)).foldl (homeStep axes_bitmap)
    (some (pos, fun _ => 0))

/-- machine_home: zero the bitmapped axes (loop above), trace the request,
then move the difference steps at max feedrate.  none when the loop's
out-of-bounds iteration is reached. -/
noncomputable def machine_home (state : PrinterState) (axes_bitmap : ℕ) :
    Option (PrinterState × List MEvent) :=
  match homeScan axes_bitmap state.machine_position with
  | none => none
  | some (pos1, diffs) =>
    let state1 := { state with machine_position := pos1 }
    let tr :=
      if state1.msg_stream then
        [MEvent.traceHoming axes_bitmap (diffs AXIS_X) (diffs AXIS_Y) (diffs AXIS_Z)]
      else []
    some (state1, tr ++ move_machine_steps state1 state1.cfg.max_feedrate diffs)

/-- gcode_machine_control_init.  The singleton s_mstate and the results of
the external calls geteuid() and beagleg_init() are passed explicitly.
Returns the new singleton and the C return value (0 = ok, 1 = error). -/
def gcode_machine_control_init (s_mstate : Option PrinterState) (euid : ℤ)
    (beagleg_init_result : ℤ) (config : MachineControlConfig) :
    Option PrinterState × ℤ :=
  match s_mstate with
  | some st => (some st, 1)
  | none =>
    let newState : PrinterState :=
      { cfg := config
        current_feedrate_mm_per_sec := config.max_feedrate / 10
        prog_speed_factor := 1
        machine_position := fun _ => 0
        msg_stream := false }
    if config.dry_run then (some newState, 0)
    else if euid ≠ 0 then (none, 1)
    else if beagleg_init_result ≠ 0 then (none, 1)
    else (some newState, 0)

/-- A coordinated or rapid move request, as delivered by the parser. -/
inductive MoveCmd where
  | coordinated (feed : ℚ) (axis : Fin GCODE_NUM_AXES → ℚ)
  | rapid (feed : ℚ) (axis : Fin GCODE_NUM_AXES → ℚ)

/-- The absolute mm target of a move request. -/
def MoveCmd.target : MoveCmd → (Fin GCODE_NUM_AXES → ℚ)
  | .coordinated _ axis => axis
  | .rapid _ axis => axis

/-- Dispatch one move request. -/
noncomputable def execMove (st : PrinterState) : MoveCmd → PrinterState × List MEvent
  | .coordinated feed axis => machine_G1 st feed axis
  | .rapid feed axis => machine_G0 st feed axis

/-- Run a sequence of move requests, collecting all events. -/
noncomputable def runMoves (st : PrinterState) :
    List MoveCmd → PrinterState × List MEvent
  | [] => (st, [])
  | c :: cs =>
    let r := execMove st c
    let r2 := runMoves r.1 cs
    (r2.1, r.2 ++ r2.2)

/-- Sum of the AXIS_E deltas of all commands submitted to the step queue in
an event list. -/
def sumEnqueuedE (ev : List MEvent) : ℤ :=
  (ev.map fun e =>
    match e with
    | MEvent.enqueue c => c.steps AXIS_E
    | _ => 0).sum

/-- A configuration used for concrete test inputs: the spec's end-to-end
scenario configuration (10 steps/mm on every axis, max feedrate 200, unit
speed factor), with the hardware-facing flags chosen per scenario. -/
def testConfig : MachineControlConfig :=
  { axis_steps_per_mm := fun _ => 10
    max_feedrate := 200
    speed_factor := 1
    acceleration := 0
    dry_run := false
    synchronous := false
    debug_print := true }

/-- A machine state used for concrete test inputs: the state produced by a
successful initialisation with testConfig (feedrate max/10 = 20, program
speed factor 1, all positions zero), with a message stream attached. -/
def testState : PrinterState :=
  { cfg := testConfig
    current_feedrate_mm_per_sec := 20
    prog_speed_factor := 1
    machine_position := fun _ => 0
    msg_stream := true }

/-- Step deltas of the spec's end-to-end scenario: 100 steps on X, none on
the other axes. -/
def steps100 : Fin GCODE_NUM_AXES → ℤ := fun i => if i = AXIS_X then 100 else 0

/-- Millimeter target of the spec's end-to-end scenario: X = 10 mm. -/
def target10 : Fin GCODE_NUM_AXES → ℚ := fun i => if i = AXIS_X then 10 else 0

/-! ## Basic lemmas -/

lemma machine_move_fst_cfg (st : PrinterState) (f : ℚ) (a : Fin GCODE_NUM_AXES → ℚ) :
    (machine_move st f a).1.cfg = st.cfg := rfl

lemma machine_move_fst_current (st : PrinterState) (f : ℚ) (a : Fin GCODE_NUM_AXES → ℚ) :
    (machine_move st f a).1.current_feedrate_mm_per_sec =
      st.current_feedrate_mm_per_sec := rfl

lemma machine_move_fst_prog (st : PrinterState) (f : ℚ) (a : Fin GCODE_NUM_AXES → ℚ) :
    (machine_move st f a).1.prog_speed_factor = st.prog_speed_factor := rfl

lemma machine_move_fst_pos (st : PrinterState) (f : ℚ) (a : Fin GCODE_NUM_AXES → ℚ) :
    (machine_move st f a).1.machine_position =
      fun i => qTrunc (a i * (st.cfg.axis_steps_per_mm i : ℚ)) := rfl

lemma choose_max_abs_eq (a b : ℤ) : choose_max_abs a b = max |a| |b| := by
  rw [choose_max_abs]
  rcases le_or_lt |a| |b| with h | h
  · rw [if_neg (not_lt.mpr h), max_eq_right h]
  · rw [if_pos h, max_eq_left h.le]

lemma euklid_distance_eq (a b : ℝ) :
    euklid_distance a b = Real.sqrt (a ^ 2 + b ^ 2) := by
  rw [euklid_distance]; congr 1; ring

/-- Exactly the commands the step queue receives from move_machine_steps:
one submission when some delta is nonzero and the machine is not in dry-run
mode, carrying the given deltas and the (possibly overridden) travel
speed. -/
lemma enqueue_mem_move_machine_steps {st : PrinterState} {f : ℚ}
    {steps : Fin GCODE_NUM_AXES → ℤ} {c : BgMovement} :
    MEvent.enqueue c ∈ move_machine_steps st f steps ↔
      ¬ (∀ i, steps i = 0) ∧ st.cfg.dry_run = false ∧
        c = ⟨steps,
          if travelSpeedRaw (st.cfg.axis_steps_per_mm AXIS_X) f steps = 0
          then ZERO_FEEDRATE_OVERRIDE_HZ
          else travelSpeedRaw (st.cfg.axis_steps_per_mm AXIS_X) f steps⟩ := by
  by_cases hz : ∀ i, steps i = 0
  · simp [move_machine_steps, hz]
  · simp only [move_machine_steps, if_neg hz, List.mem_append]
    constructor
    · intro h
      rcases h with (h | h) | h
      · split_ifs at h <;> simp_all
      · split_ifs at h <;> simp_all
      · split_ifs at h <;> simp_all
    · rintro ⟨-, hdry, hc⟩
      refine Or.inl (Or.inr ?_)
      simp [hdry, hc]

/-- machine_G1 rewritten with its two ifs lifted out of the state threading. -/
lemma machine_G1_eq (st : PrinterState) (feed : ℚ) (axis : Fin GCODE_NUM_AXES → ℚ) :
    machine_G1 st feed axis =
      machine_move
        { st with current_feedrate_mm_per_sec :=
            if feed > 0 then st.cfg.speed_factor * feed
            else st.current_feedrate_mm_per_sec }
        (if st.prog_speed_factor *
              (if feed > 0 then st.cfg.speed_factor * feed
               else st.current_feedrate_mm_per_sec) > st.cfg.max_feedrate
         then st.cfg.max_feedrate
         else st.prog_speed_factor *
              (if feed > 0 then st.cfg.speed_factor * feed
               else st.current_feedrate_mm_per_sec)) axis := by
  by_cases hf : feed > 0 <;> simp [machine_G1, hf]

/-! ## Claim theorems -/

/-- C1: for a coordinated (G1-class) move, a positive given feedrate stores
global_speed_factor * given_feedrate as the current feedrate, a
non-positive one reuses the stored value; the move is executed at
program_speed_factor * current_feedrate, clamped to exactly max_feedrate
whenever that product exceeds it, and the effective feedrate never exceeds
max_feedrate. -/
theorem machine_G1_feedrate_selection (st : PrinterState) (feed : ℚ)
    (axis : Fin GCODE_NUM_AXES → ℚ) :
    ∃ cur eff : ℚ,
      (machine_G1 st feed axis).1.current_feedrate_mm_per_sec = cur
      ∧ (0 < feed → cur = st.cfg.speed_factor * feed)
      ∧ (¬ 0 < feed → cur = st.current_feedrate_mm_per_sec)
      ∧ machine_G1 st feed axis =
          machine_move { st with current_feedrate_mm_per_sec := cur } eff axis
      ∧ (st.prog_speed_factor * cur > st.cfg.max_feedrate →
          eff = st.cfg.max_feedrate)
      ∧ (¬ st.prog_speed_factor * cur > st.cfg.max_feedrate →
          eff = st.prog_speed_factor * cur)
      ∧ eff ≤ st.cfg.max_feedrate := by
  refine ⟨if feed > 0 then st.cfg.speed_factor * feed
            else st.current_feedrate_mm_per_sec,
          if st.prog_speed_factor *
               (if feed > 0 then st.cfg.speed_factor * feed
                else st.current_feedrate_mm_per_sec) > st.cfg.max_feedrate
           then st.cfg.max_feedrate
           else st.prog_speed_factor *
               (if feed > 0 then st.cfg.speed_factor * feed
                else st.current_feedrate_mm_per_sec), ?_, ?_, ?_, ?_, ?_, ?_, ?_⟩
  · rw [machine_G1_eq, machine_move_fst_current]
  · intro hf; rw [if_pos hf]
  · intro hf; rw [if_neg hf]
  · exact machine_G1_eq st feed axis
  · intro hcl; rw [if_pos hcl]
  · intro hcl; rw [if_neg hcl]
  · by_cases hcl : st.prog_speed_factor *
        (if feed > 0 then st.cfg.speed_factor * feed
         else st.current_feedrate_mm_per_sec) > st.cfg.max_feedrate
    · rw [if_pos hcl]
    · rw [if_neg hcl]; exact le_of_not_lt hcl

/-- C5: a rapid (G0-class) move is executed at max_feedrate unless the
given feedrate is positive and its scaled value
global_speed_factor * program_speed_factor * feed is below max_feedrate,
in which case the scaled value is used; the rapid feedrate never exceeds
max_feedrate. -/
theorem machine_G0_rapid_feedrate (st : PrinterState) (feed : ℚ)
    (axis : Fin GCODE_NUM_AXES → ℚ) :
    ∃ rf : ℚ,
      machine_G0 st feed axis = machine_move st rf axis
      ∧ ((0 < feed ∧ st.cfg.speed_factor * st.prog_speed_factor * feed <
            st.cfg.max_feedrate) →
          rf = st.cfg.speed_factor * st.prog_speed_factor * feed)
      ∧ (¬ (0 < feed ∧ st.cfg.speed_factor * st.prog_speed_factor * feed <
            st.cfg.max_feedrate) →
          rf = st.cfg.max_feedrate)
      ∧ rf ≤ st.cfg.max_feedrate := by
  refine ⟨if 0 < feed ∧ st.cfg.speed_factor * st.prog_speed_factor * feed <
              st.cfg.max_feedrate
          then st.cfg.speed_factor * st.prog_speed_factor * feed
          else st.cfg.max_feedrate, ?_, ?_, ?_, ?_⟩
  · rfl
  · intro h; rw [if_pos h]
  · intro h; rw [if_neg h]
  · split_ifs with h
    · exact le_of_lt h.2
    · exact le_refl _

/-- C4: the set-speed-factor command maps a negative value v to the
requested factor 1 + v; a requested factor below 0.005 is rejected leaving
the whole state (in particular program_speed_factor) unchanged, with a
trace emitted when a message stream is present; otherwise the requested
factor is stored.  In particular v = -0.999 is rejected leaving the state
unchanged and v = -0.5 sets the factor to 0.5. -/
theorem machine_set_speed_factor_spec (st : PrinterState) (v : ℚ) :
    ((if v < 0 then 1 + v else v) < 5 / 1000 →
        (machine_set_speed_factor st v).1 = st
        ∧ (st.msg_stream = true →
            (machine_set_speed_factor st v).2 =
              [MEvent.traceSpeedFactorRejected (if v < 0 then 1 + v else v)]))
    ∧ (¬ (if v < 0 then 1 + v else v) < 5 / 1000 →
        (machine_set_speed_factor st v).1 =
          { st with prog_speed_factor := if v < 0 then 1 + v else v }
        ∧ (machine_set_speed_factor st v).2 = [])
    ∧ (machine_set_speed_factor st (-(999 / 1000))).1 = st
    ∧ (machine_set_speed_factor st (-(1 / 2))).1.prog_speed_factor = 1 / 2 := by
  refine ⟨?_, ?_, ?_, ?_⟩
  · intro h
    constructor
    · simp [machine_set_speed_factor, if_pos h]
    · intro hm; simp [machine_set_speed_factor, if_pos h, hm]
  · intro h
    constructor
    · simp [machine_set_speed_factor, if_neg h]
    · simp [machine_set_speed_factor, if_neg h]
  · norm_num [machine_set_speed_factor]
  · norm_num [machine_set_speed_factor]

lemma travelSpeedRaw_steps100 (f : ℚ) :
    travelSpeedRaw 10 f steps100 = 10 * (f : ℝ) := by
  have hX : steps100 AXIS_X = 100 := by decide
  have hY : steps100 AXIS_Y = 0 := by decide
  rw [travelSpeedRaw]
  simp only [hX, hY]
  have hmax : choose_max_abs 100 0 = 100 := by decide
  rw [hmax, if_pos (by norm_num : (100:ℤ) > 0)]
  have hsqrt : euklid_distance ((100:ℤ) : ℝ) ((0:ℤ) : ℝ) = 100 := by
    rw [euklid_distance]
    rw [show (((100:ℤ):ℝ) * ((100:ℤ):ℝ) + ((0:ℤ):ℝ) * ((0:ℤ):ℝ)) = 100 ^ 2 by
      norm_num]
    rw [Real.sqrt_sq (by norm_num : (0:ℝ) ≤ 100)]
  rw [hsqrt]
  push_cast
  ring

/-- C6: a move with some nonzero step delta whose computed travel speed is
exactly zero is submitted (outside dry-run mode) with the fixed minimum
override rate ZERO_FEEDRATE_OVERRIDE_HZ instead of a zero rate — indeed
every command such a move submits carries that rate — and the substitution
is traced when a message stream is present. -/
theorem zero_feedrate_override (st : PrinterState) (f : ℚ)
    (steps : Fin GCODE_NUM_AXES → ℤ) (hnz : ¬ ∀ i, steps i = 0)
    (hzero : travelSpeedRaw (st.cfg.axis_steps_per_mm AXIS_X) f steps = 0) :
    (st.cfg.dry_run = false →
      MEvent.enqueue ⟨steps, ZERO_FEEDRATE_OVERRIDE_HZ⟩ ∈
        move_machine_steps st f steps)
    ∧ (∀ c : BgMovement, MEvent.enqueue c ∈ move_machine_steps st f steps →
        c.travel_speed = ZERO_FEEDRATE_OVERRIDE_HZ)
    ∧ (st.msg_stream = true →
        MEvent.traceZeroFeedrate (st.cfg.axis_steps_per_mm AXIS_X) ∈
          move_machine_steps st f steps) := by
  refine ⟨?_, ?_, ?_⟩
  · intro hdry
    exact enqueue_mem_move_machine_steps.mpr ⟨hnz, hdry, by rw [if_pos hzero]⟩
  · intro c hc
    have h := (enqueue_mem_move_machine_steps.mp hc).2.2
    rw [h, if_pos hzero]
  · intro hm
    simp only [move_machine_steps, if_neg hnz, List.mem_append]
    exact Or.inl (Or.inl (by simp [hzero, hm]))

/-- C6 witness: with the test state (10 steps/mm, not dry-run, message
stream attached), a move of 100 X steps at requested feedrate 0 submits a
command at exactly the override rate and traces the substitution. -/
theorem zero_feedrate_override_witness :
    MEvent.enqueue ⟨steps100, ZERO_FEEDRATE_OVERRIDE_HZ⟩ ∈
      move_machine_steps testState 0 steps100
    ∧ MEvent.traceZeroFeedrate (testState.cfg.axis_steps_per_mm AXIS_X) ∈
      move_machine_steps testState 0 steps100 := by
  have hnz : ¬ ∀ i : Fin GCODE_NUM_AXES, steps100 i = 0 := by decide
  have hzero : travelSpeedRaw (testState.cfg.axis_steps_per_mm AXIS_X) 0
      steps100 = 0 := by
    have h10 : testState.cfg.axis_steps_per_mm AXIS_X = 10 := rfl
    rw [h10, travelSpeedRaw_steps100]
    push_cast
    ring
  have h := zero_feedrate_override testState 0 steps100 hnz hzero
  exact ⟨h.1 rfl, h.2.2 rfl⟩

lemma machine_move_eq (st : PrinterState) (f : ℚ) (a : Fin GCODE_NUM_AXES → ℚ) :
    machine_move st f a =
      ({ st with machine_position :=
           fun i => qTrunc (a i * (st.cfg.axis_steps_per_mm i : ℚ)) },
       move_machine_steps st f
         (fun i => qTrunc (a i * (st.cfg.axis_steps_per_mm i : ℚ))
            - st.machine_position i)) := rfl

/-- The spec's end-to-end scenario state: freshly initialised with the
scenario configuration (dry-run), message stream attached. -/
def scenarioState : PrinterState :=
  { testState with cfg := { testConfig with dry_run := true } }

lemma scenario_position :
    (machine_G1 scenarioState 50 target10).1.machine_position = steps100 := by
  rw [machine_G1_eq, machine_move_fst_pos]
  funext i
  fin_cases i <;>
    norm_num [qTrunc, Fin.ext_iff, target10, steps100, scenarioState, testState,
      testConfig, AXIS_X]

lemma scenario_events :
    (machine_G1 scenarioState 50 target10).2 =
      [MEvent.traceDebugPrint ⟨steps100, 500⟩ 50] := by
  have hnz : ¬ ∀ i : Fin GCODE_NUM_AXES, steps100 i = 0 := by decide
  have hdiff : (fun i => qTrunc (target10 i *
        ((scenarioState.cfg.axis_steps_per_mm i : ℤ) : ℚ))
        - scenarioState.machine_position i) = steps100 := by
    funext i
    fin_cases i <;>
      norm_num [qTrunc, Fin.ext_iff, target10, steps100, scenarioState, testState,
        testConfig, AXIS_X]
  have hraw : travelSpeedRaw (scenarioState.cfg.axis_steps_per_mm AXIS_X) 50
      steps100 = 500 := by
    have h10 : scenarioState.cfg.axis_steps_per_mm AXIS_X = 10 := rfl
    rw [h10, travelSpeedRaw_steps100]; norm_num
  have h500 : ¬ (500 : ℝ) = 0 := by norm_num
  rw [machine_G1_eq, machine_move_eq]
  simp only
  have hcur : (if (50:ℚ) > 0 then scenarioState.cfg.speed_factor * 50
      else scenarioState.current_feedrate_mm_per_sec) = 50 := by
    norm_num [scenarioState, testState, testConfig]
  simp only [hcur]
  have heff : (if scenarioState.prog_speed_factor * 50 > scenarioState.cfg.max_feedrate
      then scenarioState.cfg.max_feedrate
      else scenarioState.prog_speed_factor * 50) = 50 := by
    norm_num [scenarioState, testState, testConfig]
  simp only [heff]
  simp only [move_machine_steps, hdiff, if_neg hnz, hraw, if_neg h500]
  simp [scenarioState, testState, testConfig, h500]
  exact ⟨AXIS_X, by norm_num [target10, qTrunc, AXIS_X]⟩

/-- C2: the travel speed of a move with step deltas (dx, dy) on X/Y at
feedrate f is max(|dx|,|dy|) * steps_per_mm_X * f / sqrt(dx^2 + dy^2) when
max(|dx|,|dy|) > 0 and steps_per_mm_X * f otherwise, every submitted
command carries that speed when it is nonzero, and the end-to-end scenario
(10 steps/mm everywhere, max feedrate 200, unit factors, dry run, move to
X = 10 mm at feed 50) produces exactly one traced command with steps
(100, 0, 0, 0) and travel speed 500 steps/s. -/
theorem travel_speed_formula (st0 : PrinterState) :
    (∀ (spmX : ℤ) (f : ℚ) (steps : Fin GCODE_NUM_AXES → ℤ),
      (0 < max |steps AXIS_X| |steps AXIS_Y| →
        travelSpeedRaw spmX f steps =
          ((max |steps AXIS_X| |steps AXIS_Y| : ℤ) : ℝ) * (spmX : ℝ) * (f : ℝ) /
            Real.sqrt (((steps AXIS_X : ℤ) : ℝ) ^ 2 + ((steps AXIS_Y : ℤ) : ℝ) ^ 2))
      ∧ (max |steps AXIS_X| |steps AXIS_Y| = 0 →
        travelSpeedRaw spmX f steps = (spmX : ℝ) * (f : ℝ)))
    ∧ (∀ (f : ℚ) (steps : Fin GCODE_NUM_AXES → ℤ) (c : BgMovement),
        MEvent.enqueue c ∈ move_machine_steps st0 f steps →
        travelSpeedRaw (st0.cfg.axis_steps_per_mm AXIS_X) f steps ≠ 0 →
        c.travel_speed = travelSpeedRaw (st0.cfg.axis_steps_per_mm AXIS_X) f steps)
    ∧ (machine_G1 scenarioState 50 target10).2 =
        [MEvent.traceDebugPrint ⟨steps100, 500⟩ 50]
    ∧ (machine_G1 scenarioState 50 target10).1.machine_position = steps100 := by
  refine ⟨?_, ?_, scenario_events, scenario_position⟩
  · intro spmX f steps
    constructor
    · intro hpos
      rw [travelSpeedRaw]
      simp only [choose_max_abs_eq]
      rw [if_pos hpos, euklid_distance_eq]
    · intro hzero
      rw [travelSpeedRaw]
      simp only [choose_max_abs_eq]
      rw [hzero, if_neg (lt_irrefl 0)]
  · intro f steps c hc hraw
    have h := (enqueue_mem_move_machine_steps.mp hc).2.2
    rw [h, if_neg hraw]

lemma enqueue_mem_machine_move {st : PrinterState} {f : ℚ}
    {a : Fin GCODE_NUM_AXES → ℚ} {c : BgMovement}
    (h : MEvent.enqueue c ∈ (machine_move st f a).2) : ∃ i, c.steps i ≠ 0 := by
  rw [machine_move_eq] at h
  obtain ⟨hnz, -, hc⟩ := enqueue_mem_move_machine_steps.mp h
  push_neg at hnz
  obtain ⟨i, hi⟩ := hnz
  exact ⟨i, by rw [hc]; exact hi⟩

lemma enqueue_mem_execMove {st : PrinterState} {c : MoveCmd} {cmd : BgMovement}
    (h : MEvent.enqueue cmd ∈ (execMove st c).2) : ∃ i, cmd.steps i ≠ 0 := by
  cases c with
  | coordinated feed axis =>
    rw [execMove, machine_G1_eq] at h
    exact enqueue_mem_machine_move h
  | rapid feed axis =>
    rw [execMove, machine_G0] at h
    exact enqueue_mem_machine_move h

lemma execMove_cfg (st : PrinterState) (c : MoveCmd) :
    (execMove st c).1.cfg = st.cfg := by
  cases c with
  | coordinated feed axis => rw [execMove, machine_G1_eq, machine_move_fst_cfg]
  | rapid feed axis => rfl

lemma execMove_pos (st : PrinterState) (c : MoveCmd) :
    (execMove st c).1.machine_position =
      fun i => qTrunc (c.target i * (st.cfg.axis_steps_per_mm i : ℚ)) := by
  cases c with
  | coordinated feed axis => rw [execMove, machine_G1_eq, machine_move_fst_pos]; rfl
  | rapid feed axis => rfl

lemma runMoves_cfg (st : PrinterState) (cs : List MoveCmd) :
    (runMoves st cs).1.cfg = st.cfg := by
  induction cs generalizing st with
  | nil => rfl
  | cons d ds ih => rw [runMoves]; simp only; rw [ih, execMove_cfg]

lemma runMoves_append_fst (st : PrinterState) (cs ds : List MoveCmd) :
    (runMoves st (cs ++ ds)).1 = (runMoves (runMoves st cs).1 ds).1 := by
  induction cs generalizing st with
  | nil => rfl
  | cons d ds2 ih => rw [List.cons_append, runMoves, runMoves]; simp only; rw [ih]

/-- C3: over any sequence of coordinated and rapid moves, (i) no step
command with all-zero deltas is ever submitted to the queue, (ii) if the
last move's target maps back to the starting machine position (zero net
displacement) the machine position returns exactly to its starting value,
(iii) machine_move commits the new absolute position unconditionally, and
(iv) a move whose deltas are all zero submits nothing and emits no
trace. -/
theorem move_sequence_invariants :
    (∀ (st : PrinterState) (cs : List MoveCmd) (c : BgMovement),
        MEvent.enqueue c ∈ (runMoves st cs).2 → ∃ i, c.steps i ≠ 0)
    ∧ (∀ (st : PrinterState) (cs : List MoveCmd) (c : MoveCmd),
        (∀ i, qTrunc (c.target i * (st.cfg.axis_steps_per_mm i : ℚ))
            = st.machine_position i) →
        (runMoves st (cs ++ [c])).1.machine_position = st.machine_position)
    ∧ (∀ (st : PrinterState) (f : ℚ) (a : Fin GCODE_NUM_AXES → ℚ),
        (machine_move st f a).1.machine_position
          = fun i => qTrunc (a i * (st.cfg.axis_steps_per_mm i : ℚ)))
    ∧ (∀ (st : PrinterState) (f : ℚ) (steps : Fin GCODE_NUM_AXES → ℤ),
        (∀ i, steps i = 0) → move_machine_steps st f steps = []) := by
  refine ⟨?_, ?_, ?_, ?_⟩
  · intro st cs
    induction cs generalizing st with
    | nil => intro c hc; simp [runMoves] at hc
    | cons d ds ih =>
      intro c hc
      rw [runMoves] at hc
      simp only [List.mem_append] at hc
      rcases hc with h | h
      · exact enqueue_mem_execMove h
      · exact ih _ c h
  · intro st cs c hc
    rw [runMoves_append_fst]
    have h1 : (runMoves (runMoves st cs).1 [c]).1 =
        (execMove (runMoves st cs).1 c).1 := rfl
    rw [h1, execMove_pos, runMoves_cfg]
    funext i
    exact hc i
  · intro st f a
    exact machine_move_fst_pos st f a
  · intro st f steps h
    rw [move_machine_steps, if_pos h]

/-- What the machine_home loop computes when every bitmapped index it
processes is in bounds: positions of processed bitmapped axes become zero,
differences of processed bitmapped axes other than E become the negated
starting position, everything else is untouched. -/
lemma homeScan_foldl_spec (b : ℕ) :
    ∀ (l : List ℕ), l.Nodup →
      (∀ i ∈ l, b.testBit i = true → i < GCODE_NUM_AXES) →
      ∀ pos diffs, ∃ pos1 diffs1,
        l.foldl (homeStep b) (some (pos, diffs)) = some (pos1, diffs1)
        ∧ (∀ j : Fin GCODE_NUM_AXES,
            pos1 j = if j.val ∈ l ∧ b.testBit j.val then 0 else pos j)
        ∧ (∀ j : Fin GCODE_NUM_AXES,
            diffs1 j = if j.val ∈ l ∧ b.testBit j.val ∧ j ≠ AXIS_E
                       then -(pos j) else diffs j) := by
  intro l
  induction l with
  | nil =>
    intro _ _ pos diffs
    exact ⟨pos, diffs, rfl, fun j => by simp, fun j => by simp⟩
  | cons i l ih =>
    intro hnd hbound pos diffs
    rw [List.nodup_cons] at hnd
    obtain ⟨hil, hndl⟩ := hnd
    have hboundl : ∀ i ∈ l, b.testBit i = true → i < GCODE_NUM_AXES :=
      fun i hi => hbound i (List.mem_cons_of_mem _ hi)
    rw [List.foldl_cons]
    by_cases hbit : b.testBit i
    · have hi : i < GCODE_NUM_AXES := hbound i (List.mem_cons_self i l) hbit
      by_cases hE : i = (AXIS_E : Fin GCODE_NUM_AXES).val
      · -- extruder axis: position zeroed, no difference recorded
        have hstep : homeStep b (some (pos, diffs)) i =
            some (Function.update pos ⟨i, hi⟩ 0, diffs) := by
          subst hE
          simp [homeStep, writeIdx, hbit, hi]
        rw [hstep]
        obtain ⟨pos1, diffs1, hfold, hpos, hdiffs⟩ :=
          ih hndl hboundl (Function.update pos ⟨i, hi⟩ 0) diffs
        refine ⟨pos1, diffs1, hfold, ?_, ?_⟩
        · intro j
          rw [hpos j]
          by_cases hji : j.val = i
          · have hj : j = ⟨i, hi⟩ := Fin.ext hji
            have hjl : j.val ∉ l := by rw [hji]; exact hil
            rw [if_neg (fun hc => hjl hc.1),
                if_pos ⟨by rw [hji]; exact List.mem_cons_self i l,
                        by rw [hji]; exact hbit⟩,
                hj, Function.update_same]
          · have hupd : Function.update pos ⟨i, hi⟩ 0 j = pos j :=
              Function.update_noteq (fun h => hji (congrArg Fin.val h)) _ _
            rw [hupd]
            by_cases hc : j.val ∈ l ∧ b.testBit j.val
            · rw [if_pos hc, if_pos ⟨List.mem_cons_of_mem _ hc.1, hc.2⟩]
            · rw [if_neg hc, if_neg]
              rintro ⟨hmem, hb⟩
              rcases List.mem_cons.mp hmem with h | h
              · exact hji h
              · exact hc ⟨h, hb⟩
        · intro j
          rw [hdiffs j]
          by_cases hji : j.val = i
          · have hj : j = AXIS_E := Fin.ext (by rw [hji, hE])
            have hjl : j.val ∉ l := by rw [hji]; exact hil
            rw [if_neg (fun hc => hjl hc.1), if_neg (fun hc => hc.2.2 hj)]
          · by_cases hc : j.val ∈ l ∧ b.testBit j.val ∧ j ≠ AXIS_E
            · have hupd : Function.update pos ⟨i, hi⟩ 0 j = pos j :=
                Function.update_noteq (fun h => hji (congrArg Fin.val h)) _ _
              rw [if_pos hc, hupd,
                  if_pos ⟨List.mem_cons_of_mem _ hc.1, hc.2⟩]
            · rw [if_neg hc, if_neg]
              rintro ⟨hmem, hb, hne⟩
              rcases List.mem_cons.mp hmem with h | h
              · exact hji h
              · exact hc ⟨h, hb, hne⟩
      · -- ordinary axis: difference recorded, position zeroed
        have hstep : homeStep b (some (pos, diffs)) i =
            some (Function.update pos ⟨i, hi⟩ 0,
                  Function.update diffs ⟨i, hi⟩ (-(pos ⟨i, hi⟩))) := by
          simp [homeStep, readIdx, writeIdx, hbit, hE, hi]
        rw [hstep]
        obtain ⟨pos1, diffs1, hfold, hpos, hdiffs⟩ :=
          ih hndl hboundl (Function.update pos ⟨i, hi⟩ 0)
            (Function.update diffs ⟨i, hi⟩ (-(pos ⟨i, hi⟩)))
        refine ⟨pos1, diffs1, hfold, ?_, ?_⟩
        · intro j
          rw [hpos j]
          by_cases hji : j.val = i
          · have hj : j = ⟨i, hi⟩ := Fin.ext hji
            have hjl : j.val ∉ l := by rw [hji]; exact hil
            rw [if_neg (fun hc => hjl hc.1),
                if_pos ⟨by rw [hji]; exact List.mem_cons_self i l,
                        by rw [hji]; exact hbit⟩,
                hj, Function.update_same]
          · have hupd : Function.update pos ⟨i, hi⟩ 0 j = pos j :=
              Function.update_noteq (fun h => hji (congrArg Fin.val h)) _ _
            rw [hupd]
            by_cases hc : j.val ∈ l ∧ b.testBit j.val
            · rw [if_pos hc, if_pos ⟨List.mem_cons_of_mem _ hc.1, hc.2⟩]
            · rw [if_neg hc, if_neg]
              rintro ⟨hmem, hb⟩
              rcases List.mem_cons.mp hmem with h | h
              · exact hji h
              · exact hc ⟨h, hb⟩
        · intro j
          rw [hdiffs j]
          by_cases hji : j.val = i
          · have hj : j = ⟨i, hi⟩ := Fin.ext hji
            have hjl : j.val ∉ l := by rw [hji]; exact hil
            have hjE : j ≠ AXIS_E := fun h => hE (by rw [← hji, h])
            rw [if_neg (fun hc => hjl hc.1),
                if_pos ⟨by rw [hji]; exact List.mem_cons_self i l,
                        by rw [hji]; exact hbit, hjE⟩,
                hj, Function.update_same]
          · have hupdp : Function.update pos ⟨i, hi⟩ 0 j = pos j :=
              Function.update_noteq (fun h => hji (congrArg Fin.val h)) _ _
            have hupdd : Function.update diffs ⟨i, hi⟩ (-(pos ⟨i, hi⟩)) j
                = diffs j :=
              Function.update_noteq (fun h => hji (congrArg Fin.val h)) _ _
            rw [hupdp, hupdd]
            by_cases hc : j.val ∈ l ∧ b.testBit j.val ∧ j ≠ AXIS_E
            · rw [if_pos hc, if_pos ⟨List.mem_cons_of_mem _ hc.1, hc.2⟩]
            · rw [if_neg hc, if_neg]
              rintro ⟨hmem, hb, hne⟩
              rcases List.mem_cons.mp hmem with h | h
              · exact hji h
              · exact hc ⟨h, hb, hne⟩
    · -- bit not set: nothing happens at this index
      have hstep : homeStep b (some (pos, diffs)) i = some (pos, diffs) := by
        simp [homeStep, hbit]
      rw [hstep]
      obtain ⟨pos1, diffs1, hfold, hpos, hdiffs⟩ := ih hndl hboundl pos diffs
      refine ⟨pos1, diffs1, hfold, ?_, ?_⟩
      · intro j
        rw [hpos j]
        by_cases hji : j.val = i
        · have hb : b.testBit j.val = false := by rw [hji]; exact Bool.eq_false_iff.mpr hbit
          have hjl : j.val ∉ l := by rw [hji]; exact hil
          rw [if_neg (fun hc => hjl hc.1), if_neg (fun hc => by
            rw [hb] at hc; exact Bool.false_ne_true hc.2)]
        · by_cases hc : j.val ∈ l ∧ b.testBit j.val
          · rw [if_pos hc, if_pos ⟨List.mem_cons_of_mem _ hc.1, hc.2⟩]
          · rw [if_neg hc, if_neg]
            rintro ⟨hmem, hb⟩
            rcases List.mem_cons.mp hmem with h | h
            · exact hji h
            · exact hc ⟨h, hb⟩
      · intro j
        rw [hdiffs j]
        by_cases hji : j.val = i
        · have hb : b.testBit j.val = false := by rw [hji]; exact Bool.eq_false_iff.mpr hbit
          have hjl : j.val ∉ l := by rw [hji]; exact hil
          rw [if_neg (fun hc => hjl hc.1), if_neg (fun hc => by
            rw [hb] at hc; exact Bool.false_ne_true hc.2.1)]
        · by_cases hc : j.val ∈ l ∧ b.testBit j.val ∧ j ≠ AXIS_E
          · rw [if_pos hc, if_pos ⟨List.mem_cons_of_mem _ hc.1, hc.2⟩]
          · rw [if_neg hc, if_neg]
            rintro ⟨hmem, hb, hne⟩
            rcases List.mem_cons.mp hmem with h | h
            · exact hji h
            · exact hc ⟨h, hb, hne⟩

/-- homeScan on a bitmap whose bit GCODE_NUM_AXES is clear: every bitmapped
axis position becomes zero, every bitmapped non-E axis difference is the
negated starting position, all other entries are zero/untouched. -/
lemma homeScan_spec (b : ℕ) (h4 : b.testBit GCODE_NUM_AXES = false)
    (pos : Fin GCODE_NUM_AXES → ℤ) :
    ∃ pos1 diffs1, homeScan b pos = some (pos1, diffs1)
      ∧ (∀ j : Fin GCODE_NUM_AXES,
          pos1 j = if b.testBit j.val then 0 else pos j)
      ∧ (∀ j : Fin GCODE_NUM_AXES,
          diffs1 j = if b.testBit j.val ∧ j ≠ AXIS_E then -(pos j) else 0) := by
  have hbound : ∀ i ∈ List.range (GCODE_NUM_AXES + 1),
      b.testBit i = true → i < GCODE_NUM_AXES := by
    intro i hmem hbit
    rcases Nat.lt_succ_iff_lt_or_eq.mp (List.mem_range.mp hmem) with h | h
    · exact h
    · rw [h, h4] at hbit; exact absurd hbit (by simp)
  obtain ⟨pos1, diffs1, hfold, hpos, hdiffs⟩ :=
    homeScan_foldl_spec b (List.range (GCODE_NUM_AXES + 1)) (List.nodup_range _)
      hbound pos (fun _ => 0)
  have hmemj : ∀ j : Fin GCODE_NUM_AXES,
      j.val ∈ List.range (GCODE_NUM_AXES + 1) :=
    fun j => List.mem_range.mpr (Nat.lt_succ_of_lt j.isLt)
  refine ⟨pos1, diffs1, hfold, ?_, ?_⟩
  · intro j
    rw [hpos j]
    by_cases hb : b.testBit j.val = true
    · rw [if_pos ⟨hmemj j, hb⟩, if_pos hb]
    · rw [if_neg (fun hc => hb hc.2), if_neg hb]
  · intro j
    rw [hdiffs j]
    by_cases hb : (b.testBit j.val = true ∧ j ≠ AXIS_E)
    · rw [if_pos ⟨hmemj j, hb.1, hb.2⟩, if_pos hb]
    · rw [if_neg (fun hc => hb ⟨hc.2.1, hc.2.2⟩), if_neg hb]

/-- machine_home on a bitmap whose bit GCODE_NUM_AXES is clear: the state's
positions are updated by the loop, the homing trace precedes the move, and
the move is issued at max feedrate on the loop's differences. -/
lemma machine_home_spec (st : PrinterState) (b : ℕ)
    (h4 : b.testBit GCODE_NUM_AXES = false) :
    ∃ pos1 diffs1,
      homeScan b st.machine_position = some (pos1, diffs1)
      ∧ machine_home st b =
          some ({ st with machine_position := pos1 },
            (if st.msg_stream then
               [MEvent.traceHoming b (diffs1 AXIS_X) (diffs1 AXIS_Y)
                  (diffs1 AXIS_Z)]
             else [])
            ++ move_machine_steps { st with machine_position := pos1 }
                 st.cfg.max_feedrate diffs1)
      ∧ (∀ j : Fin GCODE_NUM_AXES,
          pos1 j = if b.testBit j.val then 0 else st.machine_position j)
      ∧ (∀ j : Fin GCODE_NUM_AXES,
          diffs1 j = if b.testBit j.val ∧ j ≠ AXIS_E
                     then -(st.machine_position j) else 0) := by
  obtain ⟨pos1, diffs1, hscan, hpos, hdiffs⟩ :=
    homeScan_spec b h4 st.machine_position
  refine ⟨pos1, diffs1, hscan, ?_, hpos, hdiffs⟩
  simp only [machine_home]
  rw [hscan]

lemma sumEnqueuedE_eq_zero {ev : List MEvent}
    (h : ∀ c : BgMovement, MEvent.enqueue c ∈ ev → c.steps AXIS_E = 0) :
    sumEnqueuedE ev = 0 := by
  rw [sumEnqueuedE]
  apply List.sum_eq_zero
  intro x hx
  rw [List.mem_map] at hx
  obtain ⟨e, he, hxe⟩ := hx
  rw [← hxe]
  cases e with
  | enqueue c => exact h c he
  | waitQueueEmpty => rfl
  | traceZeroFeedrate s => rfl
  | traceDebugPrint c f => rfl
  | traceHoming bm x y z => rfl
  | traceSpeedFactorRejected v => rfl

/-- C8: calling initialize while an instance already exists returns the
existing instance completely untouched together with the C error result 1;
no new state is created. -/
theorem gcode_machine_control_init_double (st : PrinterState) (euid hw : ℤ)
    (config : MachineControlConfig) :
    gcode_machine_control_init (some st) euid hw config = (some st, 1)
    ∧ (gcode_machine_control_init (some st) euid hw config).2 ≠ 0 := by
  refine ⟨rfl, ?_⟩
  simp [gcode_machine_control_init]

/-- C9: the home loop touches only in-bounds indices exactly when bit
GCODE_NUM_AXES of the axis bitmap is clear; with that bit set (bitmap 0x10)
the loop's final iteration i = GCODE_NUM_AXES indexes one past the end of
both arrays (embedded as none). -/
theorem machine_home_loop_bounds :
    (∀ (pos : Fin GCODE_NUM_AXES → ℤ) (b : ℕ),
        b.testBit GCODE_NUM_AXES = false → (homeScan b pos).isSome = true)
    ∧ (homeScan 16 (fun _ => 0)).isNone = true := by
  constructor
  · intro pos b h4
    obtain ⟨p1, d1, hfold, -, -⟩ := homeScan_spec b h4 pos
    rw [hfold]; rfl
  · decide

/-- C7 counterexample: for axis bitmap 0x10 (bit GCODE_NUM_AXES set) even
the first home request has no defined result — the loop's out-of-bounds
iteration is reached — so no zero-delta second command exists for every
bitmap. -/
theorem machine_home_bitmap16_crashes :
    machine_home { testState with machine_position := fun _ => 7 } 16 = none := by
  have h : (homeScan 16 (fun _ => (7:ℤ))).isNone = true := by decide
  have h2 : homeScan 16 (fun _ => (7:ℤ)) = none :=
    Option.isNone_iff_eq_none.mp h
  simp only [machine_home]
  rw [h2]

/-- C7 (amended): for every machine state and every axis bitmap with bit
GCODE_NUM_AXES clear, issuing the home command twice in succession with the
same bitmap computes all-zero deltas the second time and submits no step
command — no motion — because after the first home the stored position of
every homed axis is already zero. -/
theorem machine_home_idempotent (st : PrinterState) (b : ℕ)
    (h4 : b.testBit GCODE_NUM_AXES = false) :
    ∃ st1 ev1, machine_home st b = some (st1, ev1) ∧
    ∃ st2 ev2, machine_home st1 b = some (st2, ev2)
      ∧ (∃ pos2 diffs2, homeScan b st1.machine_position = some (pos2, diffs2)
          ∧ (∀ i, diffs2 i = 0))
      ∧ st2.machine_position = st1.machine_position
      ∧ (∀ c : BgMovement, MEvent.enqueue c ∉ ev2) := by
  obtain ⟨pos1, diffs1, hscan1, hhome1, hpos1, hdiffs1⟩ := machine_home_spec st b h4
  obtain ⟨pos2, diffs2, hscan2, hhome2, hpos2, hdiffs2⟩ :=
    machine_home_spec { st with machine_position := pos1 } b h4
  have hd2 : ∀ i, diffs2 i = 0 := by
    intro i
    rw [hdiffs2 i]
    by_cases hc : b.testBit i.val = true ∧ i ≠ AXIS_E
    · rw [if_pos hc]
      have hz : ({ st with machine_position := pos1 }
          : PrinterState).machine_position i = 0 := by
        show pos1 i = 0
        rw [hpos1 i, if_pos hc.1]
      rw [hz]
      exact neg_zero
    · rw [if_neg hc]
  have hp2 : pos2 = ({ st with machine_position := pos1 }
      : PrinterState).machine_position := by
    funext i
    rw [hpos2 i]
    by_cases hb : b.testBit i.val = true
    · rw [if_pos hb]
      show (0 : ℤ) = pos1 i
      rw [hpos1 i, if_pos hb]
    · rw [if_neg hb]
  have hmv : move_machine_steps
      { { st with machine_position := pos1 } with machine_position := pos2 }
      ({ st with machine_position := pos1 } : PrinterState).cfg.max_feedrate
      diffs2 = [] := by
    rw [move_machine_steps, if_pos hd2]
  refine ⟨_, _, hhome1, _, _, hhome2, ⟨pos2, diffs2, hscan2, hd2⟩, ?_, ?_⟩
  · show pos2 = _
    exact hp2
  · intro c hc
    rw [List.mem_append, hmv] at hc
    rcases hc with hc | hc
    · split_ifs at hc <;> simp at hc
    · simp at hc

/-- C7 witness: homing X and Y (bitmap 0b0011) twice from position 7
on all axes: the second home computes all-zero deltas and submits
nothing. -/
theorem machine_home_idempotent_witness :
    ∃ st1 ev1, machine_home { testState with machine_position := fun _ => 7 } 3
        = some (st1, ev1) ∧
    ∃ st2 ev2, machine_home st1 3 = some (st2, ev2)
      ∧ (∃ pos2 diffs2, homeScan 3 st1.machine_position = some (pos2, diffs2)
          ∧ (∀ i, diffs2 i = 0))
      ∧ st2.machine_position = st1.machine_position
      ∧ (∀ c : BgMovement, MEvent.enqueue c ∉ ev2) :=
  machine_home_idempotent { testState with machine_position := fun _ => 7 } 3
    (by decide)

/-- C10 counterexample: for axis bitmap 0x18 (extruder bit set together
with bit GCODE_NUM_AXES) the home request has no defined result at all —
so the claim does not hold for every bitmap with the E bit set. -/
theorem machine_home_extruder_bitmap24_crashes :
    machine_home { testState with machine_position := fun _ => 5 } 24 = none := by
  have h : (homeScan 24 (fun _ => (5:ℤ))).isNone = true := by decide
  have h2 : homeScan 24 (fun _ => (5:ℤ)) = none :=
    Option.isNone_iff_eq_none.mp h
  simp only [machine_home]
  rw [h2]

/-- C10 (amended): for every state and every axis bitmap with the extruder
bit set and bit GCODE_NUM_AXES clear, home resets machine_position[E] to 0
while every submitted command carries an E delta of exactly 0; hence when
the E position was nonzero it no longer equals its previous value plus the
sum of submitted E deltas. -/
theorem machine_home_extruder (st : PrinterState) (b : ℕ)
    (hE : b.testBit (AXIS_E : Fin GCODE_NUM_AXES).val = true)
    (h4 : b.testBit GCODE_NUM_AXES = false) :
    ∃ st1 ev1, machine_home st b = some (st1, ev1)
      ∧ st1.machine_position AXIS_E = 0
      ∧ (∀ c : BgMovement, MEvent.enqueue c ∈ ev1 → c.steps AXIS_E = 0)
      ∧ sumEnqueuedE ev1 = 0
      ∧ (st.machine_position AXIS_E ≠ 0 →
          st1.machine_position AXIS_E ≠
            st.machine_position AXIS_E + sumEnqueuedE ev1) := by
  obtain ⟨pos1, diffs1, hscan, hhome, hpos, hdiffs⟩ := machine_home_spec st b h4
  have hdE : diffs1 AXIS_E = 0 := by
    rw [hdiffs AXIS_E, if_neg]
    rintro ⟨-, hne⟩
    exact hne rfl
  have hposE : pos1 AXIS_E = 0 := by
    rw [hpos AXIS_E, if_pos hE]
  have henq : ∀ c : BgMovement,
      MEvent.enqueue c ∈
        (if st.msg_stream then
           [MEvent.traceHoming b (diffs1 AXIS_X) (diffs1 AXIS_Y) (diffs1 AXIS_Z)]
         else [])
        ++ move_machine_steps { st with machine_position := pos1 }
             st.cfg.max_feedrate diffs1 →
      c.steps AXIS_E = 0 := by
    intro c hc
    rw [List.mem_append] at hc
    rcases hc with hc | hc
    · split_ifs at hc <;> simp at hc
    · obtain ⟨-, -, hceq⟩ := enqueue_mem_move_machine_steps.mp hc
      rw [hceq]
      exact hdE
  refine ⟨_, _, hhome, hposE, henq, sumEnqueuedE_eq_zero henq, ?_⟩
  intro hne
  rw [sumEnqueuedE_eq_zero henq, add_zero]
  show pos1 AXIS_E ≠ st.machine_position AXIS_E
  rw [hposE]
  exact fun h => hne h.symm

/-- C10 witness: homing with bitmap 0b1000 (extruder only) from position 7
on all axes resets the stored E position to 0 with no E motion
submitted. -/
theorem machine_home_extruder_witness :
    ∃ st1 ev1, machine_home { testState with machine_position := fun _ => 7 } 8
        = some (st1, ev1)
      ∧ st1.machine_position AXIS_E = 0
      ∧ (∀ c : BgMovement, MEvent.enqueue c ∈ ev1 → c.steps AXIS_E = 0)
      ∧ sumEnqueuedE ev1 = 0
      ∧ (({ testState with machine_position := fun _ => 7 }
            : PrinterState).machine_position AXIS_E ≠ 0 →
          st1.machine_position AXIS_E ≠
            ({ testState with machine_position := fun _ => 7 }
              : PrinterState).machine_position AXIS_E + sumEnqueuedE ev1) :=
  machine_home_extruder { testState with machine_position := fun _ => 7 } 8
    (by decide) (by decide)

end BeagleG
